import Mathlib

/-!
Verification of the CognitiaOS backend core against its specification.

The development shallowly embeds the parts of `src/server.ts` and the
frontend application file (`src/unnamed/part_000`) that the claims C1-C10
concern:

* the retrying invoker `withRetry` (server.ts lines 45-72),
* the response normalizer inside `POST /api/analyze` (lines 389-409),
* the error mapping of `POST /api/analyze` (lines 413-432),
* the report store backed by the `reports` table (lines 203-216),
* the JSON serialization boundary (`JSON.stringify` on append,
  `JSON.parse` on listing),
* the cross-window sign-in handoff receiver `handleMessage`
  (part_000 lines 292-305), and
* the tail of `runAnalysis` (part_000 lines 503-564).

JavaScript strings are modelled at code-point granularity (`List Char`
obtained from `String.data`); all inputs relevant to the claims are ASCII,
where this coincides with UTF-16 unit semantics.  JSON numbers are
modelled as integers: no claim depends on fractional values.
-/

/-! ## Character-list string helpers

`String.toLowerCase`, `String.includes`, `String.endsWith` and
`String.startsWith` from JavaScript, modelled on the underlying character
lists.  Lowercasing is ASCII lowercasing, which agrees with
`toLowerCase` on every string the claims exercise. -/

/-- ASCII lowercasing of one character, as `String.prototype.toLowerCase`
acts on ASCII letters. -/
def lowerChar (c : Char) : Char :=
  if 65 ≤ c.toNat ∧ c.toNat ≤ 90 then Char.ofNat (c.toNat + 32) else c

/-- ASCII lowercasing of a character list. -/
def lowerAll (s : List Char) : List Char := s.map lowerChar

/-- Does the second list start with the first?  (Helper for `occurs`.) -/
def leadsWith : List Char → List Char → Bool
  | [], _ => true
  | _ :: _, [] => false
  | p :: ps, c :: cs => decide (p = c) && leadsWith ps cs

/-- Contiguous-substring test, the model of `String.prototype.includes`. -/
def occurs (pat : List Char) : List Char → Bool
  | [] => pat.isEmpty
  | c :: cs => leadsWith pat (c :: cs) || occurs pat cs

/-- Model of `String.prototype.endsWith`. -/
def tailMatches (pat s : List Char) : Bool :=
  leadsWith pat.reverse s.reverse

/-- Model of `String.prototype.startsWith`. -/
def headMatches (pat s : List Char) : Bool :=
  leadsWith pat s

/-! ## Errors raised by the upstream call

JavaScript errors reaching `withRetry`'s catch clause are inspected for
`error.status`, `error.response && error.response.status` and
`error.message`; nothing else of the error object is consulted anywhere in
the program, so the embedding records exactly those three fields. -/

/-- The observable part of a JavaScript error object: `status`,
`response.status` and `message`, each possibly absent. -/
structure ErrObj where
  status : Option Nat
  responseStatus : Option Nat
  message : Option String
deriving DecidableEq, Repr

/-- The source expression `error.status || (error.response && error.response.status)`:
the direct status if present, else the response status. -/
def effStatus (e : ErrObj) : Option Nat :=
  match e.status with
  | some s => some s
  | none => e.responseStatus

/-- The source expression `error.message?.toLowerCase() || ""` as a
character list. -/
def msgLower (e : ErrObj) : List Char :=
  lowerAll (e.message.getD "").data

/-- The transient-failure test of `withRetry` (server.ts lines 53-61):
status 503 or 429, or the lowercased message containing one of the five
marker substrings. -/
def isTransient (e : ErrObj) : Bool :=
  decide (effStatus e = some 503) || decide (effStatus e = some 429) ||
  occurs "503".data (msgLower e) ||
  occurs "429".data (msgLower e) ||
  occurs "demand".data (msgLower e) ||
  occurs "rate exceeded".data (msgLower e) ||
  occurs "quota".data (msgLower e)

/-- Case-insensitive containment, the reading of the specification text
"its message (case-insensitive) contains": the pattern, lowercased, occurs
in the lowercased subject. -/
def containsCI (s pat : String) : Bool :=
  occurs (lowerAll pat.data) (lowerAll s.data)

/-- The transient classifier exactly as the specification words it:
status code 429 or 503, or the message containing (case-insensitively)
one of "503", "429", "demand", "rate exceeded", "quota". -/
def specTransient (e : ErrObj) : Bool :=
  decide (effStatus e = some 429) || decide (effStatus e = some 503) ||
  containsCI (e.message.getD "") "503" ||
  containsCI (e.message.getD "") "429" ||
  containsCI (e.message.getD "") "demand" ||
  containsCI (e.message.getD "") "rate exceeded" ||
  containsCI (e.message.getD "") "quota"

/-! ## The retrying invoker

`withRetry(fn, maxRetries = 5, baseDelay = 2000)` (server.ts lines 45-72).
The wrapped function is modelled as a map from the attempt index to that
attempt's outcome; the run is summarised by a trace recording the final
result, the number of attempts actually made, and every delay slept (in
milliseconds, in order). -/

/-- Outcome of one attempt of the wrapped function. -/
inductive Outcome (α : Type) where
  | ok (v : α)
  | err (e : ErrObj)

/-- Summary of a `withRetry` run: result, attempts made, delays slept. -/
structure RetryTrace (α : Type) where
  result : Except ErrObj α
  attempts : Nat
  delays : List Nat

/-- The loop of `withRetry` from iteration `i` with `fuel` iterations left
and `last` the error recorded so far.  Mirrors the source: each iteration
calls `fn`; a success returns; a transient error sleeps
`baseDelay * 2 ^ i` and continues; a terminal error is thrown at once; an
exhausted loop throws the last recorded error. -/
def withRetryFrom {α : Type} (fn : Nat → Outcome α) (baseDelay : Nat) :
    Nat → Nat → Option ErrObj → RetryTrace α
  | _, 0, last => ⟨.error (last.getD ⟨none, none, none⟩), 0, []⟩
  | i, fuel + 1, _ =>
    match fn i with
    | .ok v => ⟨.ok v, 1, []⟩
    | .err e =>
      if isTransient e then
        let rest := withRetryFrom fn baseDelay (i + 1) fuel (some e)
        ⟨rest.result, rest.attempts + 1, baseDelay * 2 ^ i :: rest.delays⟩
      else ⟨.error e, 1, []⟩

/-- `withRetry fn maxRetries baseDelay`. -/
def withRetry {α : Type} (fn : Nat → Outcome α) (maxRetries baseDelay : Nat) :
    RetryTrace α :=
  withRetryFrom fn baseDelay 0 maxRetries none

/-- `withRetry` at its default arguments, as every call site uses it. -/
def withRetry5 {α : Type} (fn : Nat → Outcome α) : RetryTrace α :=
  withRetry fn 5 2000

/-! ### Unfolding equations for the retry loop -/

theorem withRetryFrom_ok {α : Type} (fn : Nat → Outcome α) (b i fuel : Nat)
    (last : Option ErrObj) (v : α) (h : fn i = .ok v) :
    withRetryFrom fn b i (fuel + 1) last = ⟨.ok v, 1, []⟩ := by
  simp [withRetryFrom, h]

theorem withRetryFrom_term {α : Type} (fn : Nat → Outcome α) (b i fuel : Nat)
    (last : Option ErrObj) (e : ErrObj) (h : fn i = .err e)
    (ht : isTransient e = false) :
    withRetryFrom fn b i (fuel + 1) last = ⟨.error e, 1, []⟩ := by
  simp [withRetryFrom, h, ht]

theorem withRetryFrom_trans {α : Type} (fn : Nat → Outcome α) (b i fuel : Nat)
    (last : Option ErrObj) (e : ErrObj) (h : fn i = .err e)
    (ht : isTransient e = true) :
    withRetryFrom fn b i (fuel + 1) last =
      ⟨(withRetryFrom fn b (i + 1) fuel (some e)).result,
       (withRetryFrom fn b (i + 1) fuel (some e)).attempts + 1,
       b * 2 ^ i :: (withRetryFrom fn b (i + 1) fuel (some e)).delays⟩ := by
  simp [withRetryFrom, h, ht]

/-- With fuel left, the loop always makes at least one attempt. -/
theorem withRetryFrom_attempts_pos {α : Type} (fn : Nat → Outcome α)
    (b i fuel : Nat) (last : Option ErrObj) :
    1 ≤ (withRetryFrom fn b i (fuel + 1) last).attempts := by
  cases h : fn i with
  | ok v => rw [withRetryFrom_ok fn b i fuel last v h]
  | err e =>
    cases ht : isTransient e with
    | false => rw [withRetryFrom_term fn b i fuel last e h ht]
    | true => rw [withRetryFrom_trans fn b i fuel last e h ht]; simp

/-- Exhaustion: when every attempt from `i` on errors transiently, the loop
burns all its fuel, sleeps after every failure (including the last one) and
finally re-throws the very last error it saw. -/
theorem withRetryFrom_exhaust {α : Type} (fn : Nat → Outcome α) (b : Nat)
    (es : Nat → ErrObj) :
    ∀ (fuel i : Nat) (last : Option ErrObj),
    (∀ k, k < fuel → fn (i + k) = .err (es (i + k))) →
    (∀ k, k < fuel → isTransient (es (i + k)) = true) →
    withRetryFrom fn b i fuel last =
      ⟨.error ((if fuel = 0 then last else some (es (i + fuel - 1))).getD
          ⟨none, none, none⟩),
       fuel,
       (List.range fuel).map (fun k => b * 2 ^ (i + k))⟩
  | 0, i, last, _, _ => by simp [withRetryFrom]
  | fuel + 1, i, last, herr, htr => by
    have h0 : fn i = .err (es i) := by simpa using herr 0 (by omega)
    have t0 : isTransient (es i) = true := by simpa using htr 0 (by omega)
    have ih := withRetryFrom_exhaust fn b es fuel (i + 1) (some (es i))
      (fun k hk => by
        have := herr (k + 1) (by omega)
        simpa [Nat.add_assoc, Nat.add_comm 1 k] using this)
      (fun k hk => by
        have := htr (k + 1) (by omega)
        simpa [Nat.add_assoc, Nat.add_comm 1 k] using this)
    rw [withRetryFrom_trans fn b i fuel last (es i) h0 t0, ih,
        if_neg (show ¬ fuel + 1 = 0 by omega)]
    have h1 : ((if fuel = 0 then some (es i) else some (es (i + 1 + fuel - 1))).getD
          ⟨none, none, none⟩) = es (i + (fuel + 1) - 1) := by
      rcases fuel with _ | f
      · simp
      · rw [if_neg (Nat.succ_ne_zero f)]
        simp only [Option.getD_some]
        congr 1
        omega
    have h2 : (List.range (fuel + 1)).map (fun k => b * 2 ^ (i + k))
        = b * 2 ^ i :: (List.range fuel).map (fun k => b * 2 ^ (i + 1 + k)) := by
      rw [List.range_succ_eq_map, List.map_cons, List.map_map]
      congr 1
      refine List.map_congr_left (fun a _ => ?_)
      simp only [Function.comp_apply]
      have hik : i + (a + 1) = i + 1 + a := by omega
      rw [hik]
    rw [h1, h2]
    simp only [Option.getD_some]

/-! ## JSON documents

The analysis pipeline parses the model response with `JSON.parse`, patches
the parsed object in place, and the report store serializes it back with
`JSON.stringify`.  `JV` is the value universe these operate on.  Numbers
are modelled as integers (no claim depends on fractional values; the
serializer below matches `JSON.stringify` on integral numbers). -/

/-- A JSON value: the result type of `JSON.parse` and the argument type of
`JSON.stringify`.  Object fields are kept in property order, as JavaScript
objects enumerate them. -/
inductive JV where
  | null
  | bool (b : Bool)
  | num (n : Int)
  | str (s : String)
  | arr (elems : List JV)
  | obj (fields : List (String × JV))

/-- JavaScript truthiness of a `JV`.  `undefined` (an absent property) is
modelled as `null`; both are falsy, exactly as `!x` treats them. -/
def truthy : JV → Bool
  | .null => false
  | .bool b => b
  | .num n => decide (n ≠ 0)
  | .str s => !s.isEmpty
  | .arr _ => true
  | .obj _ => true

/-- Property read `o[k]` on an object's field list: the value at the first
matching key, if any.  (A JavaScript object stores each key once.) -/
def lookupField : List (String × JV) → String → Option JV
  | [], _ => none
  | (k', v) :: rest, k => if k' = k then some v else lookupField rest k

/-- Property write `o[k] = v`: replaces the value at an existing key in
place (property order is preserved), or appends a new key at the end —
JavaScript object assignment semantics. -/
def setField : List (String × JV) → String → JV → List (String × JV)
  | [], k, v => [(k, v)]
  | (k', v') :: rest, k, v =>
    if k' = k then (k, v) :: rest else (k', v') :: setField rest k v

/-! ## The serializer (`JSON.stringify`)

Emitted with no extra whitespace, double-quoted strings with the standard
escapes (`\"` `\\` `\b` `\f` `\n` `\r` `\t`, and `\u00XX` for the other
control characters, lowercase hex), and integral numbers in decimal —
matching `JSON.stringify` output on the values the program stores. -/

/-- Lowercase hexadecimal digit character for `n % 16`. -/
def hexDigit (n : Nat) : Char :=
  if n % 16 < 10 then Char.ofNat (48 + n % 16) else Char.ofNat (87 + n % 16)

/-- One string character, JSON-escaped per `JSON.stringify`. -/
def escChar (c : Char) : List Char :=
  if c = '"' then ['\\', '"']
  else if c = '\\' then ['\\', '\\']
  else if c = Char.ofNat 8 then ['\\', 'b']
  else if c = Char.ofNat 12 then ['\\', 'f']
  else if c = '\n' then ['\\', 'n']
  else if c = '\r' then ['\\', 'r']
  else if c = '\t' then ['\\', 't']
  else if c.toNat < 32 then
    ['\\', 'u', '0', '0', hexDigit (c.toNat / 16), hexDigit c.toNat]
  else [c]

/-- JSON-escape a whole character list. -/
def escAll : List Char → List Char
  | [] => []
  | c :: cs => escChar c ++ escAll cs

/-- A quoted, escaped JSON string literal for `s`. -/
def encStr (s : String) : List Char :=
  '"' :: (escAll s.data ++ ['"'])

/-- Decimal digit characters of `n`, most significant first, in front of
`acc`; structurally recursive on a fuel bound (any fuel above the digit
count gives the same answer). -/
def natCharsAux : Nat → Nat → List Char → List Char
  | 0, _, acc => acc
  | fuel + 1, n, acc =>
    if n < 10 then Char.ofNat (48 + n) :: acc
    else natCharsAux fuel (n / 10) (Char.ofNat (48 + n % 10) :: acc)

/-- Decimal digit characters of `n`, most significant first. -/
def natChars (n : Nat) : List Char := natCharsAux (n + 1) n []

/-- Decimal form of an integer, as `JSON.stringify` prints an integral
number. -/
def intChars (n : Int) : List Char :=
  if n < 0 then '-' :: natChars n.natAbs else natChars n.natAbs

mutual

/-- Serialize one value (the body of `JSON.stringify`). -/
def encVal : JV → List Char
  | .null => "null".data
  | .bool true => "true".data
  | .bool false => "false".data
  | .num n => intChars n
  | .str s => encStr s
  | .arr es => '[' :: (encItems es ++ [']'])
  | .obj fs => '{' :: (encProps fs ++ ['}'])

/-- Serialize array items, comma-separated. -/
def encItems : List JV → List Char
  | [] => []
  | [e] => encVal e
  | e :: e' :: es => encVal e ++ ',' :: encItems (e' :: es)

/-- Serialize object properties, comma-separated `"key":value` pairs. -/
def encProps : List (String × JV) → List Char
  | [] => []
  | [(k, v)] => encStr k ++ ':' :: encVal v
  | (k, v) :: p :: fs => encStr k ++ ':' :: encVal v ++ ',' :: encProps (p :: fs)

end

/-- `JSON.stringify` as a `String`-valued function. -/
def encode (v : JV) : String := ⟨encVal v⟩

/-! ## The response normalizer

Lines 396-409 of server.ts: after `JSON.parse`, each of eight fields is
assigned its default when the parsed object's property is falsy
(`if (!result.field) result.field = default`).  An absent property reads
as `undefined`, which is falsy, but so are present `null`, `false`, `0`
and `""` values — the test is truthiness, not absence. -/

/-- Property read with JavaScript absent-as-undefined semantics; for
truthiness tests `undefined` behaves as `null` does. -/
def jsGet (fs : List (String × JV)) (k : String) : JV :=
  (lookupField fs k).getD .null

/-- One defaulting statement `if (!result.k) result.k = d`. -/
def fillField (fs : List (String × JV)) (k : String) (d : JV) :
    List (String × JV) :=
  if truthy (jsGet fs k) then fs else setField fs k d

/-- The default for `data_summary`. -/
def dataSummaryDefault : JV :=
  .obj [("detected_entities", .arr []), ("key_metrics", .arr []),
        ("relationships", .arr [])]

/-- The default for `risk_heatmap`. -/
def riskHeatmapDefault : JV :=
  .obj [("title", .str "Risk Distribution"), ("data", .arr [])]

/-- The default for `operational_efficiency`. -/
def operationalEfficiencyDefault : JV :=
  .obj [("title", .str "Operational Efficiency"), ("metrics", .arr [])]

/-- The default for `geographic_matrix`. -/
def geographicMatrixDefault : JV :=
  .obj [("title", .str "Geographic Opportunity Matrix"), ("data", .arr [])]

/-- The eight defaultable fields with their literal defaults, in the order
the source applies them (server.ts lines 396-409). -/
def defaultableFields : List (String × JV) :=
  [("data_summary", dataSummaryDefault),
   ("insights", .arr []),
   ("anomalies", .arr []),
   ("risk_analysis", .arr []),
   ("recommendations", .arr []),
   ("risk_heatmap", riskHeatmapDefault),
   ("operational_efficiency", operationalEfficiencyDefault),
   ("geographic_matrix", geographicMatrixDefault)]

/-- The keys of the defaultable fields. -/
def defaultableKeys : List String := defaultableFields.map Prod.fst

/-- The eight defaulting statements applied in source order (server.ts
lines 396-409), written out as the source writes them. -/
def fillDefaults (fs : List (String × JV)) : List (String × JV) :=
  fillField (fillField (fillField (fillField (fillField (fillField
    (fillField (fillField fs "data_summary" dataSummaryDefault)
      "insights" (.arr []))
      "anomalies" (.arr []))
      "risk_analysis" (.arr []))
      "recommendations" (.arr []))
      "risk_heatmap" riskHeatmapDefault)
      "operational_efficiency" operationalEfficiencyDefault)
      "geographic_matrix" geographicMatrixDefault

/-! ## The parser (`JSON.parse`)

A recursive-descent parser over the character list, structurally recursive
on a fuel argument; `decode` supplies fuel exceeding the input length,
which suffices for every input the round-trip theorem touches.  Object
construction replays property assignments left to right, so a duplicated
key keeps its first position with its last value — `JSON.parse`'s
behaviour. -/

/-- Whitespace as the JSON grammar knows it. -/
def jsonWs (c : Char) : Bool :=
  c = ' ' || c = '\n' || c = '\r' || c = '\t'

/-- Drop leading JSON whitespace. -/
def dropWs : List Char → List Char
  | [] => []
  | c :: cs => if jsonWs c then dropWs cs else c :: cs

/-- Numeric value of one hexadecimal digit. -/
def unhex (c : Char) : Option Nat :=
  if 48 ≤ c.toNat ∧ c.toNat ≤ 57 then some (c.toNat - 48)
  else if 97 ≤ c.toNat ∧ c.toNat ≤ 102 then some (c.toNat - 87)
  else if 65 ≤ c.toNat ∧ c.toNat ≤ 70 then some (c.toNat - 55)
  else none

/-- Decimal digit test. -/
def isDig (c : Char) : Bool := 48 ≤ c.toNat && c.toNat ≤ 57

/-- Consume a maximal run of decimal digits, accumulating their value. -/
def grabDigits : List Char → Nat → Nat × List Char
  | c :: cs, acc =>
    if isDig c then grabDigits cs (acc * 10 + (c.toNat - 48)) else (acc, c :: cs)
  | [], acc => (acc, [])

/-- The single-character escapes JSON accepts after a backslash. -/
def unescChar (c : Char) : Option Char :=
  if c = '"' then some '"'
  else if c = '\\' then some '\\'
  else if c = '/' then some '/'
  else if c = 'b' then some (Char.ofNat 8)
  else if c = 'f' then some (Char.ofNat 12)
  else if c = 'n' then some '\n'
  else if c = 'r' then some '\r'
  else if c = 't' then some '\t'
  else none

/-- Parse a string body after the opening quote, accumulating in reverse. -/
def parseStrBody (acc : List Char) : List Char → Option (String × List Char)
  | [] => none
  | '"' :: rest => some (⟨acc.reverse⟩, rest)
  | '\\' :: 'u' :: a :: b :: c :: d :: rest =>
    match unhex a, unhex b, unhex c, unhex d with
    | some va, some vb, some vc, some vd =>
      parseStrBody (Char.ofNat (((va * 16 + vb) * 16 + vc) * 16 + vd) :: acc) rest
    | _, _, _, _ => none
  | '\\' :: e :: rest =>
    match unescChar e with
    | some c => parseStrBody (c :: acc) rest
    | none => none
  | c :: rest => parseStrBody (c :: acc) rest

/-- Parse an integral JSON number (optional minus, digit run). -/
def parseIntNum (cs : List Char) : Option (Int × List Char) :=
  match cs with
  | [] => none
  | c :: cs' =>
    if c = '-' then
      match cs' with
      | [] => none
      | d :: _ =>
        if isDig d then
          let p := grabDigits cs' 0
          some (-(p.1 : Int), p.2)
        else none
    else if isDig c then
      let p := grabDigits cs 0
      some ((p.1 : Int), p.2)
    else none

/-- Build a JavaScript object from parsed properties in order: each is an
assignment, so a duplicate key overwrites in place. -/
def buildObj (ps : List (String × JV)) : List (String × JV) :=
  ps.foldl (fun acc kv => setField acc kv.1 kv.2) []

mutual

/-- Parse one JSON value (after whitespace), with `fuel` bounding the
recursion depth. -/
def parseVal : Nat → List Char → Option (JV × List Char)
  | 0, _ => none
  | fuel + 1, cs =>
    match dropWs cs with
    | 'n' :: 'u' :: 'l' :: 'l' :: rest => some (.null, rest)
    | 't' :: 'r' :: 'u' :: 'e' :: rest => some (.bool true, rest)
    | 'f' :: 'a' :: 'l' :: 's' :: 'e' :: rest => some (.bool false, rest)
    | '"' :: rest =>
      match parseStrBody [] rest with
      | some (s, rest') => some (.str s, rest')
      | none => none
    | '[' :: rest =>
      match dropWs rest with
      | ']' :: rest' => some (.arr [], rest')
      | other =>
        match parseItems fuel other with
        | some (es, rest') => some (.arr es, rest')
        | none => none
    | '{' :: rest =>
      match dropWs rest with
      | '}' :: rest' => some (.obj [], rest')
      | other =>
        match parseProps fuel other with
        | some (ps, rest') => some (.obj (buildObj ps), rest')
        | none => none
    | other =>
      match parseIntNum other with
      | some (n, rest') => some (.num n, rest')
      | none => none

/-- Parse one or more comma-separated array items up to the closing `]`. -/
def parseItems : Nat → List Char → Option (List JV × List Char)
  | 0, _ => none
  | fuel + 1, cs =>
    match parseVal fuel cs with
    | none => none
    | some (v, rest) =>
      match dropWs rest with
      | ',' :: rest' =>
        match parseItems fuel rest' with
        | some (vs, rest'') => some (v :: vs, rest'')
        | none => none
      | ']' :: rest' => some ([v], rest')
      | _ => none

/-- Parse one or more comma-separated `"key":value` properties up to the
closing brace. -/
def parseProps : Nat → List Char → Option (List (String × JV) × List Char)
  | 0, _ => none
  | fuel + 1, cs =>
    match dropWs cs with
    | '"' :: rest =>
      match parseStrBody [] rest with
      | none => none
      | some (k, rest1) =>
        match dropWs rest1 with
        | ':' :: rest2 =>
          match parseVal fuel rest2 with
          | none => none
          | some (v, rest3) =>
            match dropWs rest3 with
            | ',' :: rest4 =>
              match parseProps fuel rest4 with
              | some (ps, rest5) => some ((k, v) :: ps, rest5)
              | none => none
            | '}' :: rest4 => some ([(k, v)], rest4)
            | _ => none
        | _ => none
    | _ => none

end

/-- `JSON.parse`: parse a complete document, requiring only trailing
whitespace after the value. -/
def decode (s : String) : Option JV :=
  match parseVal (s.data.length + 1) s.data with
  | some (v, rest) => if (dropWs rest).isEmpty then some v else none
  | none => none

/-! ## The analyze pipeline

`POST /api/analyze` (server.ts lines 237-433): request validation, key
resolution, the retried upstream call, the post-processing of the raw
response text, and the catch clause mapping any thrown error to an HTTP
response. -/

/-- The reasoning-service credentials available in the environment. -/
structure AnalyzeEnv where
  cogapi3 : Option String
  geminiKey : Option String
deriving DecidableEq, Repr

/-- JavaScript truthiness of an environment variable: present and
non-empty. -/
def envTruthy : Option String → Bool
  | some s => !s.isEmpty
  | none => false

/-- `process.env.COGAPI3 || process.env.GEMINI_API_KEY`. -/
def rawApiKey (env : AnalyzeEnv) : Option String :=
  if envTruthy env.cogapi3 then env.cogapi3 else env.geminiKey

/-- The key the endpoint actually uses: `none` exactly when the source's
`!apiKey || apiKey.trim() === ""` guard fires. -/
def effectiveApiKey (env : AnalyzeEnv) : Option String :=
  match rawApiKey env with
  | none => none
  | some s => if (s.data.filter (fun c => !jsonWs c)).isEmpty then none else some s

/-- The key-source name reported by the invalid-key branch (line 419):
`process.env.COGAPI3 ? "COGAPI3" : process.env.GEMINI_API_KEY ? "GEMINI_API_KEY" : "Unknown"`. -/
def keySource (env : AnalyzeEnv) : String :=
  if envTruthy env.cogapi3 then "COGAPI3"
  else if envTruthy env.geminiKey then "GEMINI_API_KEY"
  else "Unknown"

/-- `error.message || "Failed to analyze data"`. -/
def jsMsgOr (m : Option String) (d : String) : String :=
  match m with
  | some s => if s.isEmpty then d else s
  | none => d

/-- The 429 body text of the analyze endpoint (lines 426-428). -/
def rateLimitedBody : String :=
  "Gemini API rate limit exceeded. The system is currently under high load. Please wait a few moments and try again."

/-- The invalid-key body text (lines 420-422). -/
def invalidKeyBody (env : AnalyzeEnv) : String :=
  "The Gemini API key is invalid. Current key source: " ++ keySource env ++
  ". Please update your environment variables in AI Studio."

/-- The missing-key body text (lines 250-252). -/
def missingKeyBody : String :=
  "Gemini API key is not configured. Please set COGAPI3 or GEMINI_API_KEY in the environment variables."

/-- What the caller of `POST /api/analyze` observes: a JSON document on
success, or an HTTP status with an `error` body. -/
inductive AnalyzeResp where
  | ok (doc : JV)
  | err (status : Nat) (msg : String)

/-- The catch clause of the analyze endpoint (lines 413-432): derive a
status (defaulting to 500), test the invalid-key branch, then the
rate-limit branch, else answer with the error's own status and message. -/
def analyzeCatch (env : AnalyzeEnv) (e : ErrObj) : AnalyzeResp :=
  let status := (effStatus e).getD 500
  if status = 400 ∧ occurs "api key not valid".data (msgLower e) then
    .err 400 (invalidKeyBody env)
  else if status = 429 ∨ occurs "rate exceeded".data (msgLower e)
      ∨ occurs "quota".data (msgLower e) then
    .err 429 rateLimitedBody
  else
    .err status (jsMsgOr e.message "Failed to analyze data")

/-- Post-processing of a successful upstream response (lines 389-412):
reject empty text, `JSON.parse` it, then run the defaulting statements.
Property access on a parsed `null` root throws a `TypeError`
("Cannot read properties of null"); a primitive root throws on the first
defaulting assignment in strict mode.  (A parsed array root would accept
the assignments; no claim exercises that path.)  The thrown errors carry
no `status`. -/
def postProcess (text : String) : Except ErrObj JV :=
  if text.isEmpty then
    .error ⟨none, none, some "Model returned empty response"⟩
  else
    match decode text with
    | none => .error ⟨none, none, some "Unexpected token in JSON"⟩
    | some (.obj fs) => .ok (.obj (fillDefaults fs))
    | some .null =>
      .error ⟨none, none, some "Cannot read properties of null (reading data_summary)"⟩
    | some _ =>
      .error ⟨none, none, some "Cannot create property data_summary"⟩

/-- The whole `POST /api/analyze` handler.  `dataset` is the request-body
property (absent modelled as a missing option); `fn` gives each upstream
attempt's outcome, the response text on success. -/
def analyze (env : AnalyzeEnv) (dataset : Option JV)
    (fn : Nat → Outcome String) : AnalyzeResp :=
  if !truthy ((dataset).getD .null) then .err 400 "Dataset is required"
  else
    match effectiveApiKey env with
    | none => .err 500 missingKeyBody
    | some _ =>
      match (withRetry5 fn).result with
      | .error e => analyzeCatch env e
      | .ok text =>
        match postProcess text with
        | .error e => analyzeCatch env e
        | .ok doc => .ok doc

/-! ## The report store

The `reports` table (server.ts lines 82-90) and its two endpoints (lines
203-216).  Rows carry the SQLite rowid (insertion order) and the
server-assigned `created_at`; `result` holds the `JSON.stringify` text. -/

/-- One row of the `reports` table. -/
structure ReportRow where
  rowid : Nat
  id : String
  user_id : String
  query : String
  context : String
  result : String
  created_at : Nat
deriving DecidableEq, Repr

/-- The store: rows in insertion order. -/
structure Store where
  rows : List ReportRow
deriving DecidableEq, Repr

/-- A well-formed store: rowids increase in insertion order, as SQLite
assigns them. -/
def Store.wf (db : Store) : Prop :=
  db.rows.Pairwise (fun a b => a.rowid < b.rowid)

instance (db : Store) : Decidable db.wf := by
  unfold Store.wf; infer_instance

/-- The store-layer failure of `POST /api/reports`: the `INSERT` throws on
a duplicate primary key. -/
inductive StoreError where
  | duplicateId
deriving DecidableEq, Repr

/-- A fresh rowid, strictly above every existing one. -/
def freshRowid (db : Store) : Nat :=
  db.rows.foldr (fun r acc => max (r.rowid + 1) acc) 0

/-- `append`: the `INSERT INTO reports` of `POST /api/reports` (line 213),
serializing the result with `JSON.stringify`.  `now` is the
server-assigned creation timestamp. -/
def appendReport (db : Store) (rid userId q ctx : String) (result : JV)
    (now : Nat) : Except StoreError Store :=
  if db.rows.any (fun r => decide (r.id = rid)) then .error .duplicateId
  else .ok ⟨db.rows ++ [⟨freshRowid db, rid, userId, q, ctx, encode result, now⟩]⟩

/-- The store state after an append attempt: unchanged when the insert
threw. -/
def appendOrKeep (db : Store) (rid userId q ctx : String) (result : JV)
    (now : Nat) : Store :=
  match appendReport db rid userId q ctx result now with
  | .ok db' => db'
  | .error _ => db

/-- The `ORDER BY created_at DESC` comparison, with ties left in scan
(insertion) order as SQLite returns them for this unindexed table: later
creation first; between equal timestamps, smaller rowid first. -/
def reportOrder (a b : ReportRow) : Prop :=
  b.created_at < a.created_at ∨ (a.created_at = b.created_at ∧ a.rowid ≤ b.rowid)

instance : DecidableRel reportOrder := fun a b => by
  unfold reportOrder; infer_instance

instance : IsTotal ReportRow reportOrder :=
  ⟨by intro a b; unfold reportOrder; omega⟩

instance : IsTrans ReportRow reportOrder :=
  ⟨by intro a b c; unfold reportOrder; omega⟩

/-- `SELECT * FROM reports WHERE user_id = ? ORDER BY created_at DESC LIMIT 10`
(line 206). -/
def listByUser (db : Store) (userId : String) : List ReportRow :=
  (List.insertionSort reportOrder
    (db.rows.filter (fun r => decide (r.user_id = userId)))).take 10

/-- `GET /api/reports` (line 208): the rows with `result` run back through
`JSON.parse`. -/
def listReports (db : Store) (userId : String) : List (ReportRow × Option JV) :=
  (listByUser db userId).map (fun r => (r, decode r.result))

/-! ## The cross-window sign-in handoff (receiver side)

`handleMessage` in the frontend (part_000 lines 292-305): the receiver
first checks `event.origin`, then reacts to an `OAUTH_AUTH_SUCCESS`
payload by setting the user, persisting it to `localStorage`, and fetching
that user's history. -/

/-- The user payload delivered by the authentication window. -/
structure AuthUser where
  id : String
  name : String
  email : String
  avatar : String
deriving DecidableEq, Repr

/-- The data of a received `message` event, when present. -/
structure MsgData where
  msgType : String
  user : AuthUser
deriving DecidableEq, Repr

/-- A received `message` event: origin plus optional data. -/
structure MsgEvent where
  origin : String
  data : Option MsgData
deriving DecidableEq, Repr

/-- The client state the handler touches: the React `user` state, the
`cognitia_user` entry in `localStorage`, and the history fetches issued. -/
structure ClientState where
  user : Option AuthUser
  storedUser : Option AuthUser
  historyFetches : List String
deriving DecidableEq, Repr

/-- The origin test the receiver performs (line 295):
`origin.endsWith(".run.app") || origin.includes("localhost")`. -/
def originAllowed (origin : String) : Bool :=
  tailMatches ".run.app".data origin.data || occurs "localhost".data origin.data

/-- The receiver: drop events failing the origin test; on an
`OAUTH_AUTH_SUCCESS` payload set the user, store it, fetch history;
ignore everything else. -/
def handleMessage (st : ClientState) (ev : MsgEvent) : ClientState :=
  if !originAllowed ev.origin then st
  else
    match ev.data with
    | some d =>
      if d.msgType = "OAUTH_AUTH_SUCCESS" then
        ⟨some d.user, some d.user, st.historyFetches ++ [d.user.id]⟩
      else st
    | none => st

/-- The origin restriction as the specification words it: the message's
origin is the expected application host itself, or a local-development
host.  Stated for comparison with the code's `originAllowed`. -/
def specOriginAllowed (appHost origin : String) : Bool :=
  decide (origin = appHost) ||
  headMatches "http://localhost".data origin.data ||
  headMatches "https://localhost".data origin.data ||
  headMatches "http://127.0.0.1".data origin.data

/-! ## The client analysis flow (tail of `runAnalysis`)

part_000 lines 503-564: after the `/api/analyze` response is read, an
error response throws (with a high-demand rewording for 429s); a success
stores the result and, for a signed-in user, attempts a best-effort
persistence whose failure is only logged.  `fetch` rejects only on network
failure, not on an HTTP error status. -/

/-- How the persistence `fetch('/api/reports')` can go. -/
inductive PersistOutcome where
  | ok
  | httpError
  | networkFail
deriving DecidableEq, Repr

/-- The client state `runAnalysis` leaves behind: the rendered result,
the error banner, and whether the history was refreshed. -/
structure RunState where
  result : Option JV
  error : Option String
  historyRefreshed : Bool

/-- The client-side rewording of an error response (lines 531-535). -/
def clientErrText (status : Nat) (msg : String) : String :=
  if status = 429 ∨ occurs "rate exceeded".data (lowerAll msg.data) then
    "The Intelligence Engine is currently experiencing high demand. Please wait 30-60 seconds and try again."
  else if msg.isEmpty then "Intelligence Engine failed to process data."
  else msg

/-- The tail of `runAnalysis`, from the parsed `/api/analyze` response on:
error responses throw into the catch clause and set the error banner; a
success sets the result and, with a signed-in user, tries to persist —
a rejection there is caught and logged without touching the result or the
error banner (the history refresh inside the inner `try` is skipped). -/
def runAnalysisTail (user : Option AuthUser) (resp : AnalyzeResp)
    (persist : PersistOutcome) : RunState :=
  match resp with
  | .err status msg => ⟨none, some (clientErrText status msg), false⟩
  | .ok doc =>
    match user with
    | none => ⟨some doc, none, false⟩
    | some _ =>
      match persist with
      | .networkFail => ⟨some doc, none, false⟩
      | _ => ⟨some doc, none, true⟩

/-! ## Shared lemmas and concrete fixtures -/

/-- The code's transient test and the specification's classification agree
on every error. -/
theorem isTransient_eq_specTransient (e : ErrObj) :
    isTransient e = specTransient e := by
  have h503 : lowerAll "503".data = "503".data := by decide
  have h429 : lowerAll "429".data = "429".data := by decide
  have hdem : lowerAll "demand".data = "demand".data := by decide
  have hrate : lowerAll "rate exceeded".data = "rate exceeded".data := by decide
  have hquo : lowerAll "quota".data = "quota".data := by decide
  simp only [isTransient, specTransient, containsCI, msgLower,
    h503, h429, hdem, hrate, hquo]
  rw [Bool.or_comm (decide (effStatus e = some 503))]

/-- A terminal (non-transient) upstream error: status 400, no marker in
the message. -/
def terminalErr : ErrObj := ⟨some 400, none, some "Bad Request"⟩

/-- An upstream call failing terminally on every attempt. -/
def terminalFn : Nat → Outcome String := fun _ => .err terminalErr

/-- A transient upstream error: status 429. -/
def transientErr : ErrObj := ⟨some 429, none, some "Too Many Requests"⟩

/-- An upstream call failing transiently on every attempt. -/
def transientFn : Nat → Outcome String := fun _ => .err transientErr

/-! ## Claim C1 -/

/-- Claim C1: the invoker's retry test agrees with the spec's
classification on every error; a non-matching error raised at any attempt
with fuel left ends the run at once with exactly that one further attempt,
the error propagated unchanged; a matching error with budget left is
followed by another attempt; in particular a terminal first error makes
the whole run a single attempt propagating that error with no delay
slept. -/
theorem C1_retry_classification (fn : Nat → Outcome String) :
    (∀ e : ErrObj, isTransient e = specTransient e)
    ∧ (∀ (i fuel : Nat) (last : Option ErrObj) (e : ErrObj),
        fn i = .err e → specTransient e = false →
        withRetryFrom fn 2000 i (fuel + 1) last = ⟨.error e, 1, []⟩)
    ∧ (∀ (i fuel : Nat) (last : Option ErrObj) (e : ErrObj),
        fn i = .err e → specTransient e = true →
        2 ≤ (withRetryFrom fn 2000 i (fuel + 2) last).attempts)
    ∧ (∀ e : ErrObj, fn 0 = .err e → specTransient e = false →
        withRetry5 fn = ⟨.error e, 1, []⟩) := by
  refine ⟨isTransient_eq_specTransient, ?_, ?_, ?_⟩
  · intro i fuel last e he hs
    exact withRetryFrom_term fn 2000 i fuel last e he
      ((isTransient_eq_specTransient e).trans hs)
  · intro i fuel last e he hs
    rw [withRetryFrom_trans fn 2000 i (fuel + 1) last e he
      ((isTransient_eq_specTransient e).trans hs)]
    have := withRetryFrom_attempts_pos fn 2000 (i + 1) fuel (some e)
    dsimp only
    omega
  · intro e he hs
    exact withRetryFrom_term fn 2000 0 4 none e he
      ((isTransient_eq_specTransient e).trans hs)

/-- Witness for C1 at a concrete terminal error: a 400 "Bad Request" is
classified terminal by both definitions and the run makes a single
attempt, propagating it unchanged. -/
theorem C1_retry_classification_witness :
    isTransient terminalErr = specTransient terminalErr
    ∧ withRetry5 terminalFn = ⟨.error terminalErr, 1, []⟩ :=
  ⟨(C1_retry_classification terminalFn).1 terminalErr,
   (C1_retry_classification terminalFn).2.2.2 terminalErr rfl (by decide)⟩

/-! ## Claim C2 -/

/-- Counterexample to C2 as stated: with every attempt failing 429, the
run does wait 2000, 4000, 8000 and 16000 ms between its five attempts —
but it also sleeps a further 32000 ms (`2000 * 2 ^ 4`) after the fifth
failure before re-raising, so the delays slept before giving up are not
exactly the four the claim lists. -/
theorem C2_exhaustion_counterexample :
    isTransient transientErr = true
    ∧ (withRetry5 transientFn).delays = [2000, 4000, 8000, 16000, 32000]
    ∧ (withRetry5 transientFn).delays ≠ [2000, 4000, 8000, 16000] :=
  ⟨by decide, rfl, by decide⟩

/-- Claim C2 as amended: when all five attempts fail with
transient-classified errors, the invoker makes exactly 5 attempts, sleeps
2000, 4000, 8000 and 16000 ms before attempts 2-5 **and a further
32000 ms after the fifth failure**, and then re-raises the last observed
error unchanged. -/
theorem C2_exhaustion (fn : Nat → Outcome String) (es : Nat → ErrObj)
    (herr : ∀ i, i < 5 → fn i = .err (es i))
    (htr : ∀ i, i < 5 → isTransient (es i) = true) :
    withRetry5 fn = ⟨.error (es 4), 5, [2000, 4000, 8000, 16000, 32000]⟩ := by
  have h := withRetryFrom_exhaust fn 2000 es 5 0 none
    (fun k hk => by simpa using herr k hk)
    (fun k hk => by simpa using htr k hk)
  rw [withRetry5, withRetry, h]
  norm_num [List.range_succ]

/-- Witness for the amended C2 at the concrete all-429 run. -/
theorem C2_exhaustion_witness :
    withRetry5 transientFn =
      ⟨.error transientErr, 5, [2000, 4000, 8000, 16000, 32000]⟩ :=
  C2_exhaustion transientFn (fun _ => transientErr)
    (fun _ _ => rfl) (fun _ _ => show isTransient transientErr = true by decide)

/-! ## Field-access lemmas for the normalizer -/

theorem lookupField_setField_self (fs : List (String × JV)) (k : String)
    (v : JV) : lookupField (setField fs k v) k = some v := by
  induction fs with
  | nil => simp [setField, lookupField]
  | cons p rest ih =>
    obtain ⟨k', v'⟩ := p
    by_cases h : k' = k
    · simp [setField, h, lookupField]
    · simp [setField, h, lookupField, ih]

theorem lookupField_setField_ne (fs : List (String × JV)) (k j : String)
    (v : JV) (h : j ≠ k) :
    lookupField (setField fs k v) j = lookupField fs j := by
  have hkj : ¬ k = j := fun hh => h hh.symm
  induction fs with
  | nil => simp [setField, lookupField, hkj]
  | cons p rest ih =>
    obtain ⟨k', v'⟩ := p
    by_cases hk : k' = k
    · simp [setField, hk, lookupField, hkj]
    · simp [setField, hk, lookupField, ih]

theorem lookupField_fillField_self (fs : List (String × JV)) (k : String)
    (d : JV) :
    lookupField (fillField fs k d) k =
      if truthy (jsGet fs k) then lookupField fs k else some d := by
  unfold fillField
  by_cases h : truthy (jsGet fs k) <;> simp [h, lookupField_setField_self]

theorem lookupField_fillField_ne (fs : List (String × JV)) (k j : String)
    (d : JV) (h : j ≠ k) :
    lookupField (fillField fs k d) j = lookupField fs j := by
  unfold fillField
  by_cases ht : truthy (jsGet fs k) <;>
    simp [ht, lookupField_setField_ne fs k j d h]

theorem jsGet_fillField_ne (fs : List (String × JV)) (k j : String)
    (d : JV) (h : j ≠ k) : jsGet (fillField fs k d) j = jsGet fs j := by
  unfold jsGet
  rw [lookupField_fillField_ne fs k j d h]

/-! ## Claim C3 -/

/-- Counterexample to C3 as stated: a document with `insights` present
(value `null`) is not left as parsed — the truthiness test overwrites the
present falsy field with its default. -/
theorem C3_normalizer_counterexample :
    lookupField [("insights", JV.null)] "insights" = some JV.null
    ∧ lookupField (fillDefaults [("insights", JV.null)]) "insights"
        = some (JV.arr []) :=
  ⟨rfl, rfl⟩

/-- Claim C3 as amended: each of the eight defaultable fields is replaced
by its literal default exactly when the parsed value at its key is absent
**or falsy** (`null`, `false`, `0`, `""`), a truthy value being kept
unchanged; every other key — `forecast`, `visualizations`,
`strategic_growth`, `market_expansion` included — reads exactly as parsed;
and after normalization each of the eight fields is present and truthy. -/
theorem C3_normalizer_defaults (fs : List (String × JV)) :
    (∀ k d, (k, d) ∈ defaultableFields →
      lookupField (fillDefaults fs) k =
        if truthy (jsGet fs k) then lookupField fs k else some d)
    ∧ (∀ j, j ∉ defaultableKeys →
        lookupField (fillDefaults fs) j = lookupField fs j)
    ∧ (∀ k d, (k, d) ∈ defaultableFields →
        truthy (jsGet (fillDefaults fs) k) = true) := by
  have memcases : ∀ (k : String) (d : JV), (k, d) ∈ defaultableFields →
      (k = "data_summary" ∧ d = dataSummaryDefault) ∨
      (k = "insights" ∧ d = .arr []) ∨
      (k = "anomalies" ∧ d = .arr []) ∨
      (k = "risk_analysis" ∧ d = .arr []) ∨
      (k = "recommendations" ∧ d = .arr []) ∨
      (k = "risk_heatmap" ∧ d = riskHeatmapDefault) ∨
      (k = "operational_efficiency" ∧ d = operationalEfficiencyDefault) ∨
      (k = "geographic_matrix" ∧ d = geographicMatrixDefault) := by
    intro k d hmem
    simp only [defaultableFields, List.mem_cons, List.not_mem_nil, or_false,
      Prod.mk.injEq] at hmem
    tauto
  have main : ∀ k d, (k, d) ∈ defaultableFields →
      lookupField (fillDefaults fs) k =
        if truthy (jsGet fs k) then lookupField fs k else some d := by
    intro k d hmem
    rcases memcases k d hmem with ⟨hk, hd⟩ | ⟨hk, hd⟩ | ⟨hk, hd⟩ | ⟨hk, hd⟩ |
      ⟨hk, hd⟩ | ⟨hk, hd⟩ | ⟨hk, hd⟩ | ⟨hk, hd⟩ <;> subst hk <;> subst hd <;>
      simp [fillDefaults, lookupField_fillField_ne,
        lookupField_fillField_self, jsGet_fillField_ne]
  refine ⟨main, ?_, ?_⟩
  · intro j hj
    simp only [defaultableKeys, defaultableFields, List.map_cons, List.map_nil,
      List.mem_cons, List.not_mem_nil, or_false, not_or] at hj
    obtain ⟨h1, h2, h3, h4, h5, h6, h7, h8⟩ := hj
    simp [fillDefaults, lookupField_fillField_ne, h1, h2, h3, h4, h5,
      h6, h7, h8]
  · intro k d hmem
    rw [jsGet, main k d hmem]
    by_cases ht : truthy (jsGet fs k)
    · rw [if_pos ht]
      exact ht
    · rw [if_neg ht]
      rcases memcases k d hmem with ⟨hk, hd⟩ | ⟨hk, hd⟩ | ⟨hk, hd⟩ | ⟨hk, hd⟩ |
        ⟨hk, hd⟩ | ⟨hk, hd⟩ | ⟨hk, hd⟩ | ⟨hk, hd⟩ <;> subst hd <;> rfl

/-- Witness for the amended C3: on a document carrying only a truthy
`forecast`, the absent `insights` field is defaulted to `[]` and
`forecast` reads exactly as parsed. -/
theorem C3_normalizer_defaults_witness :
    lookupField (fillDefaults [("forecast", JV.num 1)]) "insights"
      = some (JV.arr [])
    ∧ lookupField (fillDefaults [("forecast", JV.num 1)]) "forecast"
      = lookupField [("forecast", JV.num 1)] "forecast" := by
  constructor
  · have h := (C3_normalizer_defaults [("forecast", JV.num 1)]).1 "insights"
      (JV.arr []) (by simp [defaultableFields])
    simpa using h
  · exact (C3_normalizer_defaults [("forecast", JV.num 1)]).2.1 "forecast"
      (by decide)

/-! ## Claim C4 -/

/-- The client state before any sign-in. -/
def emptyClientState : ClientState := ⟨none, none, []⟩

/-- A forged success message from an attacker-controlled Cloud Run
origin. -/
def evilOriginEvent : MsgEvent :=
  ⟨"https://evil.run.app",
   some ⟨"OAUTH_AUTH_SUCCESS", ⟨"u-evil", "Mallory", "m@evil.example", "a"⟩⟩⟩

/-- Counterexample to C4 as stated: the receiver's check only requires the
origin to end in ".run.app" or to contain "localhost".  The origin
`https://evil.run.app` is neither the expected application host nor a
local-development host, yet the receiver accepts its payload and changes
state (sets and stores the user, fetches history). -/
theorem C4_origin_allowlist_counterexample :
    specOriginAllowed "https://cognitia-prod.run.app" "https://evil.run.app"
      = false
    ∧ originAllowed "https://evil.run.app" = true
    ∧ handleMessage emptyClientState evilOriginEvent ≠ emptyClientState
    ∧ (handleMessage emptyClientState evilOriginEvent).user
        = some ⟨"u-evil", "Mallory", "m@evil.example", "a"⟩ :=
  ⟨by decide, by decide, by decide, rfl⟩

/-- Claim C4 as amended: the receiver accepts a payload only when the
origin passes its allowlist — ends with ".run.app" or contains
"localhost" (a strictly weaker test than matching the expected
application host) — and the message is an `OAUTH_AUTH_SUCCESS` payload;
every other message leaves the client state unchanged. -/
theorem C4_origin_allowlist (st : ClientState) (ev : MsgEvent) :
    (originAllowed ev.origin = false → handleMessage st ev = st)
    ∧ (handleMessage st ev ≠ st →
        originAllowed ev.origin = true
        ∧ ∃ d, ev.data = some d ∧ d.msgType = "OAUTH_AUTH_SUCCESS") := by
  constructor
  · intro h
    simp [handleMessage, h]
  · intro h
    by_cases ho : originAllowed ev.origin
    · refine ⟨ho, ?_⟩
      cases hd : ev.data with
      | none => exact absurd (by simp [handleMessage, ho, hd]) h
      | some d =>
        by_cases hty : d.msgType = "OAUTH_AUTH_SUCCESS"
        · exact ⟨d, rfl, hty⟩
        · exact absurd (by simp [handleMessage, ho, hd, hty]) h
    · exact absurd (by simp [handleMessage, ho]) h

/-- Witness for the amended C4: a message from a plainly foreign origin is
dropped without any state change. -/
theorem C4_origin_allowlist_witness :
    handleMessage emptyClientState
      ⟨"https://attacker.example",
       some ⟨"OAUTH_AUTH_SUCCESS", ⟨"u2", "Eve", "e@evil.example", "a"⟩⟩⟩
      = emptyClientState :=
  (C4_origin_allowlist emptyClientState _).1 (by decide)

/-! ## Claim C9 -/

/-- Claim C9: with a signed-in user and a successful analysis, whatever
the persistence attempt does — including failing — the caller keeps the
successful result and no error is surfaced. -/
theorem C9_persistence_best_effort (u : AuthUser) (doc : JV)
    (persist : PersistOutcome) :
    (runAnalysisTail (some u) (.ok doc) persist).result = some doc
    ∧ (runAnalysisTail (some u) (.ok doc) persist).error = none := by
  cases persist <;> exact ⟨rfl, rfl⟩

/-! ## Claim C10 -/

/-- A configured environment for the analyze endpoint. -/
def envConfigured : AnalyzeEnv := ⟨some "test-key", none⟩

/-- A small request dataset. -/
def sampleDataset : JV :=
  .arr [.obj [("city", .str "Dhaka"), ("sales", .num 120)]]

/-- Claim C10: the upstream text "null" is valid JSON, but its parse is
not an object, so the defaulting step throws and the request ends in the
generic 500 path instead of returning a defaulted result. -/
theorem C10_null_root_fails :
    decode "null" = some JV.null
    ∧ analyze envConfigured (some sampleDataset) (fun _ => .ok "null")
        = .err 500 "Cannot read properties of null (reading data_summary)" :=
  ⟨rfl, rfl⟩

/-! ## Claim C6 -/

/-- Claim C6: for every store state and user id, `listByUser` returns at
most 10 reports, all owned by that user, ordered by creation time
descending with ties broken by insertion order (rowid), and the empty
sequence when the user owns no report. -/
theorem C6_list_by_user (db : Store) (uid : String) (hwf : db.wf) :
    (listByUser db uid).length ≤ 10
    ∧ (∀ r ∈ listByUser db uid, r.user_id = uid)
    ∧ (listByUser db uid).Pairwise (fun a b =>
        b.created_at < a.created_at ∨
        (a.created_at = b.created_at ∧ a.rowid < b.rowid))
    ∧ ((∀ r ∈ db.rows, r.user_id ≠ uid) → listByUser db uid = []) := by
  refine ⟨?_, ?_, ?_, ?_⟩
  · simp only [listByUser]
    exact List.length_take_le _ _
  · intro r hr
    have h1 : r ∈ List.insertionSort reportOrder
        (db.rows.filter (fun r => decide (r.user_id = uid))) :=
      List.take_subset _ _ hr
    have h2 : r ∈ db.rows.filter (fun r => decide (r.user_id = uid)) :=
      (List.perm_insertionSort reportOrder _).subset h1
    exact of_decide_eq_true (List.mem_filter.mp h2).2
  · have hsorted : (List.insertionSort reportOrder
        (db.rows.filter (fun r => decide (r.user_id = uid)))).Pairwise
          reportOrder :=
      List.sorted_insertionSort reportOrder _
    have hord : (listByUser db uid).Pairwise reportOrder :=
      List.Pairwise.sublist (List.take_sublist _ _) hsorted
    have hne0 : db.rows.Pairwise (fun a b => a.rowid ≠ b.rowid) :=
      hwf.imp (fun h => Nat.ne_of_lt h)
    have hne1 : (db.rows.filter
        (fun r => decide (r.user_id = uid))).Pairwise
          (fun a b => a.rowid ≠ b.rowid) :=
      List.Pairwise.sublist (List.filter_sublist _) hne0
    have hne2 : (List.insertionSort reportOrder
        (db.rows.filter (fun r => decide (r.user_id = uid)))).Pairwise
          (fun a b => a.rowid ≠ b.rowid) :=
      ((List.perm_insertionSort reportOrder _).pairwise_iff
        (fun h => Ne.symm h)).mpr hne1
    have hne3 : (listByUser db uid).Pairwise (fun a b => a.rowid ≠ b.rowid) :=
      List.Pairwise.sublist (List.take_sublist _ _) hne2
    refine (hord.and hne3).imp ?_
    intro a b h
    obtain ⟨ho, hne⟩ := h
    rcases ho with h | ⟨he, hle⟩
    · exact Or.inl h
    · exact Or.inr ⟨he, lt_of_le_of_ne hle hne⟩
  · intro hnone
    have hfil : db.rows.filter (fun r => decide (r.user_id = uid)) = [] :=
      List.filter_eq_nil_iff.mpr (fun a ha => by simpa using hnone a ha)
    simp [listByUser, hfil, List.insertionSort]

/-- A concrete store with two reports for `u1` (tied timestamps) and one
for `u2`. -/
def dbEx : Store :=
  ⟨[⟨1, "r1", "u1", "q1", "c1", encode (.obj []), 100⟩,
    ⟨2, "r2", "u1", "q2", "c2", encode (.obj []), 100⟩,
    ⟨3, "r3", "u2", "q3", "c3", encode (.obj []), 150⟩]⟩

/-- Witness for C6 on the concrete store: the cap holds and a never-seen
user id yields the empty sequence rather than an error. -/
theorem C6_list_by_user_witness :
    (listByUser dbEx "u1").length ≤ 10 ∧ listByUser dbEx "nobody" = [] :=
  ⟨(C6_list_by_user dbEx "u1" (by decide)).1,
   (C6_list_by_user dbEx "nobody" (by decide)).2.2.2 (by decide)⟩

/-! ## Claim C7 -/

/-- Claim C7: appending a report whose identifier already exists fails
with the duplicate-identifier error, and the store — in particular the
previously stored record — is unchanged. -/
theorem C7_duplicate_append (db : Store) (rid userId q ctx : String)
    (result : JV) (now : Nat) (h : ∃ r ∈ db.rows, r.id = rid) :
    appendReport db rid userId q ctx result now = .error .duplicateId
    ∧ appendOrKeep db rid userId q ctx result now = db := by
  have hany : db.rows.any (fun r => decide (r.id = rid)) = true := by
    rcases h with ⟨r, hr, hid⟩
    exact List.any_eq_true.mpr ⟨r, hr, by simpa using hid⟩
  constructor
  · simp [appendReport, hany]
  · simp [appendOrKeep, appendReport, hany]

/-- Witness for C7: re-appending id `r1` to the concrete store fails and
leaves the store as it was. -/
theorem C7_duplicate_append_witness :
    appendReport dbEx "r1" "u1" "q9" "c9" (JV.arr []) 999 = .error .duplicateId
    ∧ appendOrKeep dbEx "r1" "u1" "q9" "c9" (JV.arr []) 999 = dbEx :=
  C7_duplicate_append dbEx "r1" "u1" "q9" "c9" (JV.arr []) 999
    ⟨⟨1, "r1", "u1", "q1", "c1", encode (.obj []), 100⟩, by decide, rfl⟩

/-! ## Claim C5 -/

/-- When the guards pass and the retried call ends in an error, the
endpoint answers through the catch clause. -/
theorem analyze_err (env : AnalyzeEnv) (dataset : Option JV)
    (fn : Nat → Outcome String) (e : ErrObj) (k : String)
    (hds : truthy (dataset.getD .null) = true)
    (hk : effectiveApiKey env = some k)
    (hrun : (withRetry5 fn).result = .error e) :
    analyze env dataset fn = analyzeCatch env e := by
  simp [analyze, hds, hk, hrun]

/-- The catch clause's invalid-key branch. -/
theorem analyzeCatch_invalidKey (env : AnalyzeEnv) (e : ErrObj)
    (hst : (effStatus e).getD 500 = 400)
    (hmsg : occurs "api key not valid".data (msgLower e) = true) :
    analyzeCatch env e = .err 400 (invalidKeyBody env) := by
  simp [analyzeCatch, hst, hmsg]

/-- The catch clause's rate-limit branch. -/
theorem analyzeCatch_rateLimited (env : AnalyzeEnv) (e : ErrObj)
    (hnotkey : ¬((effStatus e).getD 500 = 400
        ∧ occurs "api key not valid".data (msgLower e) = true))
    (hbr : (effStatus e).getD 500 = 429
        ∨ occurs "rate exceeded".data (msgLower e) = true
        ∨ occurs "quota".data (msgLower e) = true) :
    analyzeCatch env e = .err 429 rateLimitedBody := by
  simp only [analyzeCatch]
  rw [if_neg hnotkey, if_pos hbr]

/-- A transient upstream error flavored 503 rather than 429. -/
def exhaust503Err : ErrObj := ⟨some 503, none, some "Service Unavailable"⟩

/-- An upstream call failing with the 503 error on every attempt. -/
def exhaust503Fn : Nat → Outcome String := fun _ => .err exhaust503Err

/-- Counterexample to C5 as stated: a retried call whose every attempt
fails with a transient-classified 503 exhausts its retries, yet the
endpoint reports it with status 503 and the raw message — not HTTP 429;
moreover the endpoint's 429 body speaks of "high load", never
"high demand". -/
theorem C5_analyze_status_counterexample :
    isTransient exhaust503Err = true
    ∧ analyze envConfigured (some sampleDataset) exhaust503Fn
        = .err 503 "Service Unavailable"
    ∧ occurs "high demand".data (lowerAll rateLimitedBody.data) = false :=
  ⟨by decide, rfl, by decide⟩

/-- Claim C5 as amended: missing dataset gives 400; a missing credential
gives 500; a 400-status error whose message flags an invalid key gives
400 naming the credential source; an exhausted retried call is reported
as 429 with the "high load" body exactly when its final error carries
status 429 or a message containing "rate exceeded" or "quota" (and does
not match the invalid-key branch) — other transient exhaustions, such as
a bare 503, surface with their own status and message. -/
theorem C5_analyze_status_mapping (env : AnalyzeEnv) (dataset : Option JV)
    (fn : Nat → Outcome String) :
    (truthy (dataset.getD .null) = false →
      analyze env dataset fn = .err 400 "Dataset is required")
    ∧ (truthy (dataset.getD .null) = true → effectiveApiKey env = none →
      analyze env dataset fn = .err 500 missingKeyBody)
    ∧ (∀ e : ErrObj, truthy (dataset.getD .null) = true →
        (∃ k, effectiveApiKey env = some k) →
        fn 0 = .err e → isTransient e = false →
        (effStatus e).getD 500 = 400 →
        occurs "api key not valid".data (msgLower e) = true →
        analyze env dataset fn = .err 400 (invalidKeyBody env))
    ∧ (∀ es : Nat → ErrObj, truthy (dataset.getD .null) = true →
        (∃ k, effectiveApiKey env = some k) →
        (∀ i, i < 5 → fn i = .err (es i)) →
        (∀ i, i < 5 → isTransient (es i) = true) →
        ¬((effStatus (es 4)).getD 500 = 400
            ∧ occurs "api key not valid".data (msgLower (es 4)) = true) →
        ((effStatus (es 4)).getD 500 = 429
          ∨ occurs "rate exceeded".data (msgLower (es 4)) = true
          ∨ occurs "quota".data (msgLower (es 4)) = true) →
        analyze env dataset fn = .err 429 rateLimitedBody) := by
  refine ⟨?_, ?_, ?_, ?_⟩
  · intro h
    simp [analyze, h]
  · intro hds hkey
    simp [analyze, hds, hkey]
  · intro e hds hk h0 htr hst hmsg
    obtain ⟨k, hk⟩ := hk
    have hrun : (withRetry5 fn).result = .error e := by
      rw [withRetry5, withRetry, withRetryFrom_term fn 2000 0 4 none e h0 htr]
    rw [analyze_err env dataset fn e k hds hk hrun,
      analyzeCatch_invalidKey env e hst hmsg]
  · intro es hds hk herr htrs hnotkey hbr
    obtain ⟨k, hk⟩ := hk
    have hrun : (withRetry5 fn).result = .error (es 4) := by
      rw [withRetry5, withRetry, withRetryFrom_exhaust fn 2000 es 5 0 none
        (fun j hj => by simpa using herr j hj)
        (fun j hj => by simpa using htrs j hj)]
      norm_num
    rw [analyze_err env dataset fn (es 4) k hds hk hrun,
      analyzeCatch_rateLimited env (es 4) hnotkey hbr]

/-- A typical invalid-credential error from the reasoning service. -/
def invalidKeyErr : ErrObj :=
  ⟨some 400, none, some "API key not valid. Please pass a valid API key."⟩

/-- Witness for the amended C5: all four concrete outcomes, each obtained
from the theorem at a concrete environment, dataset and upstream
behaviour. -/
theorem C5_analyze_status_mapping_witness :
    analyze envConfigured none (fun _ => .ok "x")
      = .err 400 "Dataset is required"
    ∧ analyze ⟨none, none⟩ (some sampleDataset) (fun _ => .ok "x")
      = .err 500 missingKeyBody
    ∧ analyze envConfigured (some sampleDataset) (fun _ => .err invalidKeyErr)
      = .err 400 (invalidKeyBody envConfigured)
    ∧ analyze envConfigured (some sampleDataset) transientFn
      = .err 429 rateLimitedBody :=
  ⟨(C5_analyze_status_mapping envConfigured none (fun _ => .ok "x")).1
     (by decide),
   (C5_analyze_status_mapping ⟨none, none⟩ (some sampleDataset)
     (fun _ => .ok "x")).2.1 (by decide) rfl,
   (C5_analyze_status_mapping envConfigured (some sampleDataset)
     (fun _ => .err invalidKeyErr)).2.2.1 invalidKeyErr (by decide)
     ⟨"test-key", rfl⟩ rfl (by decide) rfl (by decide),
   (C5_analyze_status_mapping envConfigured (some sampleDataset)
     transientFn).2.2.2 (fun _ => transientErr) (by decide)
     ⟨"test-key", rfl⟩ (fun _ _ => rfl)
     (fun _ _ => show isTransient transientErr = true by decide)
     (by decide) (Or.inl (by decide))⟩

/-! ## Claim C8: the serializer-parser round trip

`decode (encode x) = x` for every well-formed document, where `encode`
models `JSON.stringify` (applied on append) and `decode` models
`JSON.parse` (applied on listing).  Well-formedness asks only what every
value produced by a JavaScript object satisfies: no object carries a
duplicated key. -/

/-- Does the remainder start with something other than a digit?  Every
JSON delimiter that can follow a rendered number qualifies. -/
def nonDigHead : List Char → Bool
  | [] => true
  | c :: _ => !isDig c

/-! ### Decimal digits -/

theorem digitChar_spec (k : Nat) (h : k < 10) :
    (Char.ofNat (48 + k)).toNat = 48 + k
    ∧ isDig (Char.ofNat (48 + k)) = true := by
  interval_cases k <;> exact ⟨by decide, by decide⟩

theorem natCharsAux_ride (fuel : Nat) :
    ∀ (n : Nat) (acc : List Char),
    natCharsAux fuel n acc = natCharsAux fuel n [] ++ acc := by
  induction fuel with
  | zero => intro n acc; simp [natCharsAux]
  | succ f ih =>
    intro n acc
    by_cases h : n < 10
    · simp [natCharsAux, h]
    · simp only [natCharsAux, if_neg h]
      rw [ih (n / 10) (Char.ofNat (48 + n % 10) :: acc),
          ih (n / 10) [Char.ofNat (48 + n % 10)]]
      simp

theorem natCharsAux_fuel (n : Nat) :
    ∀ f1 f2 : Nat, n < f1 → n < f2 →
    natCharsAux f1 n [] = natCharsAux f2 n [] := by
  induction n using Nat.strong_induction_on with
  | _ n ih =>
    intro f1 f2 h1 h2
    match f1, f2 with
    | a + 1, b + 1 =>
      by_cases h : n < 10
      · simp [natCharsAux, h]
      · simp only [natCharsAux, if_neg h]
        rw [natCharsAux_ride a, natCharsAux_ride b,
            ih (n / 10) (by omega) a b (by omega) (by omega)]

/-- The recursive unfolding of `natChars` in least-significant-last
form. -/
theorem natChars_unfold (n : Nat) :
    natChars n = (if n < 10 then [] else natChars (n / 10))
      ++ [Char.ofNat (48 + n % 10)] := by
  by_cases h : n < 10
  · simp only [natChars, natCharsAux, if_pos h]
    rw [Nat.mod_eq_of_lt h]
    simp
  · simp only [natChars, natCharsAux, if_neg h]
    rw [natCharsAux_ride n (n / 10) [Char.ofNat (48 + n % 10)],
        natCharsAux_fuel (n / 10) n (n / 10 + 1) (by omega) (by omega)]
    rfl

theorem natChars_ne_nil (n : Nat) : natChars n ≠ [] := by
  rw [natChars_unfold]; simp

theorem natChars_digits (n : Nat) : ∀ c ∈ natChars n, isDig c = true := by
  induction n using Nat.strong_induction_on with
  | _ n ih =>
    rw [natChars_unfold]
    intro c hc
    rcases List.mem_append.mp hc with h | h
    · by_cases h10 : n < 10
      · simp [h10] at h
      · exact ih (n / 10) (by omega) c (by simpa [h10] using h)
    · rw [List.mem_singleton] at h
      subst h
      exact (digitChar_spec (n % 10) (by omega)).2

theorem natChars_head (n : Nat) :
    ∃ c t, natChars n = c :: t ∧ isDig c = true := by
  cases h : natChars n with
  | nil => exact absurd h (natChars_ne_nil n)
  | cons c t =>
    exact ⟨c, t, rfl, natChars_digits n c (h ▸ List.mem_cons_self ..)⟩

theorem grabDigits_stop (cs : List Char) (acc : Nat)
    (h : nonDigHead cs = true) : grabDigits cs acc = (acc, cs) := by
  cases cs with
  | nil => rfl
  | cons c t =>
    have hc : isDig c = false := by simpa [nonDigHead] using h
    simp [grabDigits, hc]

theorem grabDigits_run (ds : List Char) (hds : ∀ c ∈ ds, isDig c = true) :
    ∀ (rest : List Char) (acc : Nat), nonDigHead rest = true →
    grabDigits (ds ++ rest) acc
      = (ds.foldl (fun a c => a * 10 + (c.toNat - 48)) acc, rest) := by
  induction ds with
  | nil => intro rest acc h; simpa using grabDigits_stop rest acc h
  | cons c t ih =>
    intro rest acc h
    have hc : isDig c = true := hds c (List.mem_cons_self ..)
    simp only [List.cons_append, grabDigits, hc, if_pos, List.foldl_cons]
    exact ih (fun x hx => hds x (List.mem_cons_of_mem _ hx)) rest _ h

theorem natChars_foldl (n : Nat) :
    (natChars n).foldl (fun a c => a * 10 + (c.toNat - 48)) 0 = n := by
  induction n using Nat.strong_induction_on with
  | _ n ih =>
    rw [natChars_unfold, List.foldl_append]
    by_cases h : n < 10
    · simp only [if_pos h, List.foldl_nil, List.foldl_cons]
      rw [(digitChar_spec (n % 10) (by omega)).1]
      omega
    · simp only [if_neg h, List.foldl_cons, List.foldl_nil]
      rw [ih (n / 10) (by omega), (digitChar_spec (n % 10) (by omega)).1]
      omega

theorem grabDigits_natChars (n : Nat) (rest : List Char)
    (hrest : nonDigHead rest = true) :
    grabDigits (natChars n ++ rest) 0 = (n, rest) := by
  rw [grabDigits_run (natChars n) (natChars_digits n) rest 0 hrest,
      natChars_foldl]

theorem isDig_ne_minus (c : Char) (h : isDig c = true) : ¬ c = '-' := by
  intro he
  subst he
  exact absurd h (by decide)

/-- The number codec round trip: parsing a rendered integer recovers it
whenever the remainder cannot extend the digit run. -/
theorem parseIntNum_intChars (n : Int) (rest : List Char)
    (hrest : nonDigHead rest = true) :
    parseIntNum (intChars n ++ rest) = some (n, rest) := by
  obtain ⟨c, t, hct, hc⟩ := natChars_head n.natAbs
  have hgrab : grabDigits (c :: (t ++ rest)) 0 = (n.natAbs, rest) := by
    have h := grabDigits_natChars n.natAbs rest hrest
    rwa [hct, List.cons_append] at h
  by_cases hn : n < 0
  · have harg : intChars n ++ rest = '-' :: c :: (t ++ rest) := by
      simp [intChars, if_pos hn, hct]
    rw [harg, parseIntNum.eq_def]
    simp [hc, hgrab, abs_of_neg hn]
  · have harg : intChars n ++ rest = c :: (t ++ rest) := by
      simp [intChars, if_neg hn, hct]
    rw [harg, parseIntNum.eq_def]
    simp [isDig_ne_minus c hc, hc, hgrab, abs_of_nonneg (not_lt.mp hn)]

/-! ### String escapes -/

theorem unhex_hexDigit (n : Nat) : unhex (hexDigit n) = some (n % 16) := by
  have hm : n % 16 < 16 := Nat.mod_lt _ (by omega)
  rw [hexDigit]
  generalize hg : n % 16 = m at *
  interval_cases m <;> decide

/-- Parsing one escaped character undoes its escaping. -/
theorem parseStrBody_escChar (c : Char) (acc rest : List Char) :
    parseStrBody acc (escChar c ++ rest) = parseStrBody (c :: acc) rest := by
  by_cases h1 : c = '"'
  · subst h1; rfl
  by_cases h2 : c = '\\'
  · subst h2; rfl
  by_cases h3 : c = Char.ofNat 8
  · subst h3; rfl
  by_cases h4 : c = Char.ofNat 12
  · subst h4; rfl
  by_cases h5 : c = '\n'
  · subst h5; rfl
  by_cases h6 : c = '\r'
  · subst h6; rfl
  by_cases h7 : c = '\t'
  · subst h7; rfl
  by_cases hlt : c.toNat < 32
  · have harg : escChar c ++ rest = '\\' :: 'u' :: '0' :: '0' ::
        hexDigit (c.toNat / 16) :: hexDigit c.toNat :: rest := by
      simp [escChar, h1, h2, h3, h4, h5, h6, h7, hlt]
    have h0 : unhex '0' = some 0 := by decide
    rw [harg]
    simp only [parseStrBody, h0, unhex_hexDigit]
    have hval : ((0 * 16 + 0) * 16 + c.toNat / 16 % 16) * 16 + c.toNat % 16
        = c.toNat := by omega
    rw [hval, Char.ofNat_toNat]
  · have harg : escChar c ++ rest = c :: rest := by
      simp [escChar, h1, h2, h3, h4, h5, h6, h7, hlt]
    rw [harg, parseStrBody.eq_def]
    split
    · rename_i heq
      exact absurd heq (List.cons_ne_nil c rest)
    · rename_i heq
      rw [List.cons.injEq] at heq
      exact absurd heq.1 h1
    · rename_i heq
      rw [List.cons.injEq] at heq
      exact absurd heq.1 h2
    · rename_i heq
      rw [List.cons.injEq] at heq
      exact absurd heq.1 h2
    · rename_i heq
      rw [List.cons.injEq] at heq
      rw [← heq.1, ← heq.2]

/-- Parsing an escaped run stops exactly at the closing quote. -/
theorem parseStrBody_escAll (cs : List Char) :
    ∀ (acc rest : List Char),
    parseStrBody acc (escAll cs ++ '"' :: rest)
      = some (⟨acc.reverse ++ cs⟩, rest) := by
  induction cs with
  | nil => intro acc rest; simp [escAll, parseStrBody]
  | cons c cs ih =>
    intro acc rest
    rw [escAll, List.append_assoc, parseStrBody_escChar, ih]
    simp

/-- The string codec round trip. -/
theorem parseStrBody_encStr (s : String) (rest : List Char) :
    parseStrBody [] (escAll s.data ++ '"' :: rest) = some (s, rest) := by
  rw [parseStrBody_escAll]
  cases s with
  | mk d => simp

/-! ### Well-formed documents

`JSON.stringify` is only ever applied to values built by `JSON.parse` or
by JavaScript object literals, whose objects cannot carry a duplicated
key.  `wfVal` captures exactly that. -/

/-- No key occurs twice in a property list. -/
def noDupKeys : List (String × JV) → Bool
  | [] => true
  | (k, _) :: fs => fs.all (fun p => decide (p.1 ≠ k)) && noDupKeys fs

mutual

/-- Every object in the value has pairwise-distinct keys. -/
def wfVal : JV → Bool
  | .null => true
  | .bool _ => true
  | .num _ => true
  | .str _ => true
  | .arr es => wfItems es
  | .obj fs => noDupKeys fs && wfProps fs

/-- `wfVal` on every array item. -/
def wfItems : List JV → Bool
  | [] => true
  | e :: es => wfVal e && wfItems es

/-- `wfVal` on every property value. -/
def wfProps : List (String × JV) → Bool
  | [] => true
  | (_, v) :: fs => wfVal v && wfProps fs

end

theorem setField_fresh (acc : List (String × JV)) (k : String) (v : JV)
    (h : ∀ p ∈ acc, p.1 ≠ k) : setField acc k v = acc ++ [(k, v)] := by
  induction acc with
  | nil => rfl
  | cons q rest ih =>
    obtain ⟨k', v'⟩ := q
    have hk : k' ≠ k := h (k', v') (List.mem_cons_self ..)
    simp only [setField, if_neg hk, List.cons_append]
    rw [ih (fun p hp => h p (List.mem_cons_of_mem _ hp))]

theorem foldl_setField_fresh (ps : List (String × JV)) :
    ∀ acc : List (String × JV),
    (∀ p ∈ ps, ∀ q ∈ acc, p.1 ≠ q.1) → noDupKeys ps = true →
    ps.foldl (fun a kv => setField a kv.1 kv.2) acc = acc ++ ps := by
  induction ps with
  | nil => intro acc _ _; simp
  | cons p rest ih =>
    intro acc hdisj hdup
    obtain ⟨k, v⟩ := p
    simp only [noDupKeys, Bool.and_eq_true, List.all_eq_true,
      decide_eq_true_eq] at hdup
    simp only [List.foldl_cons]
    rw [setField_fresh acc k v
      (fun q hq => (hdisj (k, v) (List.mem_cons_self ..) q hq).symm)]
    rw [ih (acc ++ [(k, v)]) ?_ hdup.2]
    · simp
    · intro p hp q hq
      rcases List.mem_append.mp hq with hq | hq
      · exact hdisj p (List.mem_cons_of_mem _ hp) q hq
      · rw [List.mem_singleton] at hq
        subst hq
        exact hdup.1 p hp

/-- On a duplicate-free property list, replaying the assignments is the
identity: `JSON.parse` reconstructs exactly what was listed. -/
theorem buildObj_noDup (ps : List (String × JV)) (h : noDupKeys ps = true) :
    buildObj ps = ps := by
  have hb := foldl_setField_fresh ps [] (by simp) h
  simpa [buildObj] using hb

/-! ### Heads of rendered text -/

theorem isDig_ne (c d : Char) (h : isDig c = true) (hd : isDig d = false) :
    c ≠ d := by
  intro he
  subst he
  rw [h] at hd
  exact Bool.noConfusion hd

theorem isDig_not_ws (c : Char) (h : isDig c = true) : jsonWs c = false := by
  have w1 : c ≠ ' ' := isDig_ne c ' ' h (by decide)
  have w2 : c ≠ '\n' := isDig_ne c '\n' h (by decide)
  have w3 : c ≠ '\r' := isDig_ne c '\r' h (by decide)
  have w4 : c ≠ '\t' := isDig_ne c '\t' h (by decide)
  simp [jsonWs, w1, w2, w3, w4]

theorem intChars_head (n : Int) :
    ∃ c t, intChars n = c :: t ∧ (c = '-' ∨ isDig c = true) := by
  obtain ⟨c, t, hct, hc⟩ := natChars_head n.natAbs
  by_cases hn : n < 0
  · exact ⟨'-', natChars n.natAbs, by simp [intChars, hn], Or.inl rfl⟩
  · exact ⟨c, t, by simp [intChars, hn, hct], Or.inr hc⟩

/-- Every rendered value starts with a character that is not whitespace
and closes neither an array nor an object. -/
theorem encVal_head (v : JV) :
    ∃ c t, encVal v = c :: t ∧ jsonWs c = false ∧ c ≠ ']' ∧ c ≠ '}' := by
  have hnum : ∀ c : Char, c = '-' ∨ isDig c = true →
      jsonWs c = false ∧ c ≠ ']' ∧ c ≠ '}' := by
    intro c hc
    rcases hc with rfl | hc
    · exact ⟨rfl, by decide, by decide⟩
    · exact ⟨isDig_not_ws c hc, isDig_ne c ']' hc (by decide),
        isDig_ne c '}' hc (by decide)⟩
  cases v with
  | num n =>
    obtain ⟨c, t, hct, hc⟩ := intChars_head n
    exact ⟨c, t, hct, hnum c hc⟩
  | bool b => cases b <;> exact ⟨_, _, rfl, by decide⟩
  | null => exact ⟨'n', _, rfl, by decide⟩
  | str s => exact ⟨'"', _, rfl, by decide⟩
  | arr es => exact ⟨'[', _, rfl, by decide⟩
  | obj fs => exact ⟨'{', _, rfl, by decide⟩

theorem dropWs_cons (c : Char) (t : List Char) (h : jsonWs c = false) :
    dropWs (c :: t) = c :: t := by
  simp [dropWs, h]

/-! ### Parser branch-selection lemmas -/

theorem parseVal_arrStep (fuel : Nat) (c : Char) (t : List Char)
    (hws : jsonWs c = false) (hne : c ≠ ']') :
    parseVal (fuel + 1) ('[' :: c :: t) =
      match parseItems fuel (c :: t) with
      | some (es, rest') => some (.arr es, rest')
      | none => none := by
  show (match dropWs (c :: t) with
    | ']' :: rest' => some (JV.arr [], rest')
    | other =>
      match parseItems fuel other with
      | some (es, rest') => some (JV.arr es, rest')
      | none => none) = _
  rw [dropWs_cons c t hws]
  split
  · rename_i heq
    rw [List.cons.injEq] at heq
    exact absurd heq.1 hne
  · rfl

theorem parseVal_numStep (fuel : Nat) (c : Char) (t : List Char)
    (hws : jsonWs c = false) (hn : c ≠ 'n') (ht : c ≠ 't') (hf : c ≠ 'f')
    (hq : c ≠ '"') (hlb : c ≠ '[') (hob : c ≠ '{') :
    parseVal (fuel + 1) (c :: t) =
      match parseIntNum (c :: t) with
      | some (n, rest') => some (.num n, rest')
      | none => none := by
  simp only [parseVal]
  rw [dropWs_cons c t hws]
  split
  · rename_i heq
    rw [List.cons.injEq] at heq
    exact absurd heq.1 hn
  · rename_i heq
    rw [List.cons.injEq] at heq
    exact absurd heq.1 ht
  · rename_i heq
    rw [List.cons.injEq] at heq
    exact absurd heq.1 hf
  · rename_i heq
    rw [List.cons.injEq] at heq
    exact absurd heq.1 hq
  · rename_i heq
    rw [List.cons.injEq] at heq
    exact absurd heq.1 hlb
  · rename_i heq
    rw [List.cons.injEq] at heq
    exact absurd heq.1 hob
  · rfl

theorem parseItems_step (fuel : Nat) (cs : List Char) :
    parseItems (fuel + 1) cs =
      match parseVal fuel cs with
      | none => none
      | some (v, rest) =>
        match dropWs rest with
        | ',' :: rest' =>
          match parseItems fuel rest' with
          | some (vs, rest'') => some (v :: vs, rest'')
          | none => none
        | ']' :: rest' => some ([v], rest')
        | _ => none := rfl

theorem parseProps_step (fuel : Nat) (cs : List Char) :
    parseProps (fuel + 1) cs =
      match dropWs cs with
      | '"' :: rest =>
        match parseStrBody [] rest with
        | none => none
        | some (k, rest1) =>
          match dropWs rest1 with
          | ':' :: rest2 =>
            match parseVal fuel rest2 with
            | none => none
            | some (v, rest3) =>
              match dropWs rest3 with
              | ',' :: rest4 =>
                match parseProps fuel rest4 with
                | some (ps, rest5) => some ((k, v) :: ps, rest5)
                | none => none
              | '}' :: rest4 => some ([(k, v)], rest4)
              | _ => none
          | _ => none
      | _ => none := rfl

/-! ### The round trip, by mutual induction on the document -/

theorem encItems_cons_ne (e x : JV) (xs : List JV) :
    encItems (e :: x :: xs) = encVal e ++ ',' :: encItems (x :: xs) := rfl

mutual

theorem rtVal : ∀ (v : JV) (fuel : Nat) (rest : List Char),
    wfVal v = true → (encVal v).length < fuel → nonDigHead rest = true →
    parseVal fuel (encVal v ++ rest) = some (v, rest)
  | .null, fuel, rest, _, hf, _ => by
    cases fuel with
    | zero => exact absurd hf (Nat.not_lt_zero _)
    | succ f => rfl
  | .bool true, fuel, rest, _, hf, _ => by
    cases fuel with
    | zero => exact absurd hf (Nat.not_lt_zero _)
    | succ f => rfl
  | .bool false, fuel, rest, _, hf, _ => by
    cases fuel with
    | zero => exact absurd hf (Nat.not_lt_zero _)
    | succ f => rfl
  | .num n, fuel, rest, _, hf, hrest => by
    cases fuel with
    | zero => exact absurd hf (Nat.not_lt_zero _)
    | succ f =>
      obtain ⟨c, t, hct, hc⟩ := intChars_head n
      have harg : encVal (.num n) ++ rest = c :: (t ++ rest) := by
        simp [encVal, hct]
      rw [harg]
      rcases hc with hc | hc
      · subst hc
        rw [parseVal_numStep f '-' (t ++ rest) (by decide) (by decide)
          (by decide) (by decide) (by decide) (by decide) (by decide)]
        rw [← List.cons_append, ← hct, parseIntNum_intChars n rest hrest]
      · rw [parseVal_numStep f c (t ++ rest) (isDig_not_ws c hc)
          (isDig_ne c 'n' hc (by decide)) (isDig_ne c 't' hc (by decide))
          (isDig_ne c 'f' hc (by decide)) (isDig_ne c '"' hc (by decide))
          (isDig_ne c '[' hc (by decide)) (isDig_ne c '{' hc (by decide))]
        rw [← List.cons_append, ← hct, parseIntNum_intChars n rest hrest]
  | .str s, fuel, rest, _, hf, _ => by
    cases fuel with
    | zero => exact absurd hf (Nat.not_lt_zero _)
    | succ f =>
      have harg : encVal (.str s) ++ rest
          = '"' :: (escAll s.data ++ '"' :: rest) := by
        simp [encVal, encStr]
      rw [harg]
      show (match parseStrBody [] (escAll s.data ++ '"' :: rest) with
        | some (s', rest') => some (JV.str s', rest')
        | none => none) = _
      rw [parseStrBody_encStr s rest]
  | .arr [], fuel, rest, _, hf, _ => by
    cases fuel with
    | zero => exact absurd hf (Nat.not_lt_zero _)
    | succ f => rfl
  | .arr (e :: es), fuel, rest, hwf, hf, _ => by
    cases fuel with
    | zero => exact absurd hf (Nat.not_lt_zero _)
    | succ f =>
      have hwf' : wfItems (e :: es) = true := by simpa [wfVal] using hwf
      have hflen : (encItems (e :: es)).length + 1 < f := by
        have hle : (encVal (.arr (e :: es))).length
            = (encItems (e :: es)).length + 2 := by
          simp [encVal]
        omega
      obtain ⟨c, t, hct, hcws, hcbr, _⟩ := encVal_head e
      have hhead : ∃ u, encItems (e :: es) = c :: u := by
        cases es with
        | nil => exact ⟨t, by simp [encItems, hct]⟩
        | cons x xs =>
          exact ⟨t ++ ',' :: encItems (x :: xs),
            by rw [encItems_cons_ne, hct]; simp⟩
      obtain ⟨u, hu⟩ := hhead
      have harg : encVal (.arr (e :: es)) ++ rest
          = '[' :: (c :: (u ++ ']' :: rest)) := by
        simp [encVal, hu, List.append_assoc]
      rw [harg, parseVal_arrStep f c (u ++ ']' :: rest) hcws hcbr]
      rw [← List.cons_append, ← hu,
        rtItems e es f rest hwf' hflen]
  | .obj [], fuel, rest, _, hf, _ => by
    cases fuel with
    | zero => exact absurd hf (Nat.not_lt_zero _)
    | succ f => rfl
  | .obj ((k, v) :: fs), fuel, rest, hwf, hf, _ => by
    cases fuel with
    | zero => exact absurd hf (Nat.not_lt_zero _)
    | succ f =>
      have hwf' : noDupKeys ((k, v) :: fs) = true
          ∧ wfProps ((k, v) :: fs) = true := by
        simpa [wfVal, Bool.and_eq_true] using hwf
      have hflen : (encProps ((k, v) :: fs)).length + 1 < f := by
        have hle : (encVal (.obj ((k, v) :: fs))).length
            = (encProps ((k, v) :: fs)).length + 2 := by
          simp [encVal]
        omega
      obtain ⟨u, hu⟩ : ∃ u, encProps ((k, v) :: fs) = '"' :: u := by
        cases fs with
        | nil =>
          exact ⟨escAll k.data ++ '"' :: ':' :: encVal v,
            by simp [encProps, encStr]⟩
        | cons p ps =>
          exact ⟨escAll k.data ++ '"' :: ':' :: (encVal v ++ ',' :: encProps (p :: ps)),
            by simp [encProps, encStr]⟩
      have harg : encVal (.obj ((k, v) :: fs)) ++ rest
          = '{' :: ('"' :: (u ++ '}' :: rest)) := by
        simp [encVal, hu, List.append_assoc]
      rw [harg]
      show (match parseProps f ('"' :: (u ++ '}' :: rest)) with
        | some (ps, rest') => some (JV.obj (buildObj ps), rest')
        | none => none) = _
      rw [← List.cons_append, ← hu,
        rtProps k v fs f rest hwf'.2 hflen]
      show some (JV.obj (buildObj ((k, v) :: fs)), rest) = _
      rw [buildObj_noDup _ hwf'.1]
  termination_by v _ _ _ _ _ => sizeOf v

theorem rtItems : ∀ (e : JV) (es : List JV) (fuel : Nat) (rest : List Char),
    wfItems (e :: es) = true → (encItems (e :: es)).length + 1 < fuel →
    parseItems fuel (encItems (e :: es) ++ ']' :: rest) = some (e :: es, rest)
  | e, [], fuel, rest, hwf, hf => by
    cases fuel with
    | zero => exact absurd hf (Nat.not_lt_zero _)
    | succ f =>
      have hwfe : wfVal e = true := by
        simpa [wfItems, Bool.and_eq_true] using hwf
      have hlen : (encVal e).length < f := by
        have hle : (encItems [e]).length = (encVal e).length := rfl
        omega
      have harg : encItems [e] ++ ']' :: rest = encVal e ++ ']' :: rest := rfl
      rw [parseItems_step, harg, rtVal e f (']' :: rest) hwfe hlen rfl]
      rfl
  | e, x :: xs, fuel, rest, hwf, hf => by
    cases fuel with
    | zero => exact absurd hf (Nat.not_lt_zero _)
    | succ f =>
      have hwfe : wfVal e = true ∧ wfItems (x :: xs) = true := by
        simpa [wfItems, Bool.and_eq_true] using hwf
      have hle : (encItems (e :: x :: xs)).length
          = (encVal e).length + 1 + (encItems (x :: xs)).length := by
        rw [encItems_cons_ne]
        simp
        omega
      have hlen1 : (encVal e).length < f := by omega
      have hlen2 : (encItems (x :: xs)).length + 1 < f := by omega
      have harg : encItems (e :: x :: xs) ++ ']' :: rest
          = encVal e ++ (',' :: (encItems (x :: xs) ++ ']' :: rest)) := by
        rw [encItems_cons_ne]
        simp [List.append_assoc]
      rw [parseItems_step, harg,
        rtVal e f (',' :: (encItems (x :: xs) ++ ']' :: rest)) hwfe.1 hlen1
          rfl]
      show (match parseItems f (encItems (x :: xs) ++ ']' :: rest) with
        | some (vs, rest'') => some (e :: vs, rest'')
        | none => none) = _
      rw [rtItems x xs f rest hwfe.2 hlen2]
  termination_by e es _ _ _ _ => sizeOf e + sizeOf es

theorem rtProps : ∀ (k : String) (v : JV) (fs : List (String × JV))
    (fuel : Nat) (rest : List Char),
    wfProps ((k, v) :: fs) = true →
    (encProps ((k, v) :: fs)).length + 1 < fuel →
    parseProps fuel (encProps ((k, v) :: fs) ++ '}' :: rest)
      = some ((k, v) :: fs, rest)
  | k, v, [], fuel, rest, hwf, hf => by
    cases fuel with
    | zero => exact absurd hf (Nat.not_lt_zero _)
    | succ f =>
      have hwfv : wfVal v = true := by
        simpa [wfProps, Bool.and_eq_true] using hwf
      have hle : (encProps [(k, v)]).length
          = (escAll k.data).length + 3 + (encVal v).length := by
        simp [encProps, encStr]
        omega
      have hlenv : (encVal v).length < f := by omega
      have harg : encProps [(k, v)] ++ '}' :: rest
          = '"' :: (escAll k.data ++ '"' :: (':' :: (encVal v ++ '}' :: rest))) := by
        simp [encProps, encStr, List.append_assoc]
      rw [harg]
      show (match parseStrBody []
          (escAll k.data ++ '"' :: (':' :: (encVal v ++ '}' :: rest))) with
        | none => none
        | some (k', rest1) =>
          match dropWs rest1 with
          | ':' :: rest2 =>
            match parseVal f rest2 with
            | none => none
            | some (v', rest3) =>
              match dropWs rest3 with
              | ',' :: rest4 =>
                match parseProps f rest4 with
                | some (ps, rest5) => some ((k', v') :: ps, rest5)
                | none => none
              | '}' :: rest4 => some ([(k', v')], rest4)
              | _ => none
          | _ => none) = _
      rw [parseStrBody_encStr k (':' :: (encVal v ++ '}' :: rest))]
      show (match parseVal f (encVal v ++ '}' :: rest) with
        | none => none
        | some (v', rest3) =>
          match dropWs rest3 with
          | ',' :: rest4 =>
            match parseProps f rest4 with
            | some (ps, rest5) => some ((k, v') :: ps, rest5)
            | none => none
          | '}' :: rest4 => some ([(k, v')], rest4)
          | _ => none) = _
      rw [rtVal v f ('}' :: rest) hwfv hlenv rfl]
      rfl
  | k, v, (k', v') :: fs, fuel, rest, hwf, hf => by
    cases fuel with
    | zero => exact absurd hf (Nat.not_lt_zero _)
    | succ f =>
      have hwfv : wfVal v = true ∧ wfProps ((k', v') :: fs) = true := by
        simpa [wfProps, Bool.and_eq_true] using hwf
      have hle : (encProps ((k, v) :: (k', v') :: fs)).length
          = (escAll k.data).length + 4 + (encVal v).length
            + (encProps ((k', v') :: fs)).length := by
        simp [encProps, encStr]
        omega
      have hlenv : (encVal v).length < f := by omega
      have hlenp : (encProps ((k', v') :: fs)).length + 1 < f := by omega
      have harg : encProps ((k, v) :: (k', v') :: fs) ++ '}' :: rest
          = '"' :: (escAll k.data ++ '"' :: (':' :: (encVal v
              ++ ',' :: (encProps ((k', v') :: fs) ++ '}' :: rest)))) := by
        simp [encProps, encStr, List.append_assoc]
      rw [harg]
      show (match parseStrBody []
          (escAll k.data ++ '"' :: (':' :: (encVal v
            ++ ',' :: (encProps ((k', v') :: fs) ++ '}' :: rest)))) with
        | none => none
        | some (k'', rest1) =>
          match dropWs rest1 with
          | ':' :: rest2 =>
            match parseVal f rest2 with
            | none => none
            | some (v'', rest3) =>
              match dropWs rest3 with
              | ',' :: rest4 =>
                match parseProps f rest4 with
                | some (ps, rest5) => some ((k'', v'') :: ps, rest5)
                | none => none
              | '}' :: rest4 => some ([(k'', v'')], rest4)
              | _ => none
          | _ => none) = _
      rw [parseStrBody_encStr k (':' :: (encVal v
        ++ ',' :: (encProps ((k', v') :: fs) ++ '}' :: rest)))]
      show (match parseVal f (encVal v
          ++ ',' :: (encProps ((k', v') :: fs) ++ '}' :: rest)) with
        | none => none
        | some (v'', rest3) =>
          match dropWs rest3 with
          | ',' :: rest4 =>
            match parseProps f rest4 with
            | some (ps, rest5) => some ((k, v'') :: ps, rest5)
            | none => none
          | '}' :: rest4 => some ([(k, v'')], rest4)
          | _ => none) = _
      rw [rtVal v f (',' :: (encProps ((k', v') :: fs) ++ '}' :: rest))
        hwfv.1 hlenv rfl]
      show (match parseProps f (encProps ((k', v') :: fs) ++ '}' :: rest) with
        | some (ps, rest5) => some ((k, v) :: ps, rest5)
        | none => none) = _
      rw [rtProps k' v' fs f rest hwfv.2 hlenp]
  termination_by _ v fs _ _ _ _ => sizeOf v + sizeOf fs

end

/-- Claim C8: for every well-formed AnalysisResult document `x` (no
object with a duplicated key — true of every value JavaScript code can
build), decoding the store's encoding of `x` yields `x` again.  `encode`
is exactly the serialization `appendReport` applies on append and
`decode` exactly the deserialization `listReports` applies when reports
are listed. -/
theorem C8_store_roundtrip (x : JV) (h : wfVal x = true) :
    decode (encode x) = some x := by
  have hv := rtVal x ((encVal x).length + 1) [] h (by omega) rfl
  rw [List.append_nil] at hv
  simp [decode, encode, hv, dropWs]

/-- A small analysis document exercising every constructor. -/
def sampleDoc : JV :=
  .obj [("data_summary", dataSummaryDefault),
        ("insights", .arr []),
        ("forecast", .obj [("time_horizon", .str "Q2"),
          ("projection_data", .arr [.obj [("period", .str "Jan"),
            ("value", .num 42)]])]),
        ("flagged", .bool true),
        ("delta", .num (-3)),
        ("note", .null)]

/-- Witness for C8 at the concrete document. -/
theorem C8_store_roundtrip_witness :
    decode (encode sampleDoc) = some sampleDoc :=
  C8_store_roundtrip sampleDoc rfl
